import Mathlib

/-!
Verification development for the FlashCardsPlus spaced-repetition core
(`apps/api/src/routes/study.ts`).

The data model and the pure helpers (`normalizeFsrsState`, `toFsrsCard`,
`computeIntervalMinutes`, `deriveEaseFactorFromDifficulty`,
`mapScoreToReviewRating`, `mapReviewRatingToFsrsRating`), the review
applier `applyReviewForCard` and the session-selection logic are shallowly
embedded from the TypeScript source.  JavaScript `number` arithmetic is
embedded over `ℚ`, timestamps (`Date`) as integer epoch milliseconds,
and `Math.round` as `jsRound` (round half towards positive infinity).

The forgetting-curve scheduler itself lives in the third-party `ts-fsrs`
package, whose sources are not part of this repository; where a claim
needs it, it is modelled from the specification (see `schedulerNext`).
-/

namespace FlashCards

/-- Epoch timestamp in milliseconds (JS `Date.getTime()`). -/
abbrev Time := Int

/-- JS `Math.round`: round half towards positive infinity. -/
def jsRound (q : ℚ) : ℤ := ⌊q + 1/2⌋

/-- The Prisma `ReviewRating` enum. -/
inductive ReviewRating
  | AGAIN
  | HARD
  | GOOD
  | EASY
  deriving DecidableEq, Repr

/-- The `ts-fsrs` coarse card state (`State` enum: New=0, Learning=1,
Review=2, Relearning=3). -/
inductive FsrsState
  | New
  | Learning
  | Review
  | Relearning
  deriving DecidableEq, Repr

/-- Integer encoding of `FsrsState`, as persisted in the `fsrsState` column. -/
def fsrsStateToInt : FsrsState → ℤ
  | .New => 0
  | .Learning => 1
  | .Review => 2
  | .Relearning => 3

/-- The `ts-fsrs` grade (`Rating` enum restricted to Again/Hard/Good/Easy). -/
inductive FsrsGrade
  | Again
  | Hard
  | Good
  | Easy
  deriving DecidableEq, Repr

/-- The Prisma `ScheduleState` row (scheduling fields; `id`, `createdAt`
and `updatedAt` are database-generated bookkeeping not read by the core). -/
structure ScheduleState where
  cardId : String
  dueAt : Time
  lastReviewedAt : Option Time
  intervalMinutes : ℤ
  repetitions : ℤ
  easeFactor : ℚ
  fsrsState : ℤ
  fsrsStability : ℚ
  fsrsDifficulty : ℚ
  fsrsElapsedDays : ℤ
  fsrsScheduledDays : ℤ
  fsrsLearningSteps : ℤ
  fsrsLapses : ℤ
  deriving DecidableEq, Repr

/-- The `ts-fsrs` `Card` record. -/
structure FsrsCard where
  due : Time
  stability : ℚ
  difficulty : ℚ
  elapsed_days : ℤ
  scheduled_days : ℤ
  learning_steps : ℤ
  reps : ℤ
  lapses : ℤ
  state : FsrsState
  last_review : Option Time
  deriving DecidableEq, Repr

/-- `normalizeFsrsState` (study.ts lines 61–66): a stored integer state is
kept when it is one of the four enum values and otherwise falls back to
`New`.  The source compares against the numeric enum constants and returns
the value itself; here the kept value is decoded into the enum. -/
def normalizeFsrsState (value : ℤ) : FsrsState :=
  if value = 0 then .New
  else if value = 1 then .Learning
  else if value = 2 then .Review
  else if value = 3 then .Relearning
  else .New

/-- `mapReviewRatingToFsrsRating` (study.ts lines 68–79). -/
def mapReviewRatingToFsrsRating : ReviewRating → FsrsGrade
  | .AGAIN => .Again
  | .HARD => .Hard
  | .GOOD => .Good
  | _ => .Easy

/-- `createEmptyCard(now)` from `ts-fsrs`.  Modelled from the spec:
the `ts-fsrs` sources are not in this repository; §4.2 requires the
model's fresh "new card" state anchored at the current instant. -/
def createEmptyCard (now : Time) : FsrsCard :=
  { due := now
    stability := 0
    difficulty := 0
    elapsed_days := 0
    scheduled_days := 0
    learning_steps := 0
    reps := 0
    lapses := 0
    state := .New
    last_review := none }

/-- `toFsrsCard` (study.ts lines 81–116), the legacy/partial-state
adapter.  `scheduleState.intervalMinutes / (24 * 60)` is JS real division;
`inferredScheduledDays || 0.1` maps the falsy value `0` to `0.1`. -/
def toFsrsCard (scheduleState : Option ScheduleState) (now : Time) : FsrsCard :=
  match scheduleState with
  | none => createEmptyCard now
  | some ss =>
    if ss.fsrsStability > 0 ∧ ss.fsrsDifficulty > 0 then
      { due := ss.dueAt
        stability := ss.fsrsStability
        difficulty := ss.fsrsDifficulty
        elapsed_days := ss.fsrsElapsedDays
        scheduled_days := ss.fsrsScheduledDays
        learning_steps := ss.fsrsLearningSteps
        reps := ss.repetitions
        lapses := ss.fsrsLapses
        state := normalizeFsrsState ss.fsrsState
        last_review := ss.lastReviewedAt }
    else
      let inferredState : FsrsState := if ss.repetitions > 0 then .Review else .New
      let inferredScheduledDays : ℤ := max 0 (jsRound ((ss.intervalMinutes : ℚ) / (24 * 60)))
      { due := ss.dueAt
        stability := max (1/10) (if inferredScheduledDays = 0 then 1/10 else (inferredScheduledDays : ℚ))
        difficulty := 5
        elapsed_days := 0
        scheduled_days := inferredScheduledDays
        learning_steps := 0
        reps := ss.repetitions
        lapses := 0
        state := inferredState
        last_review := ss.lastReviewedAt }

/-- `MIN_INTERVAL_MINUTES` (study.ts line 53). -/
def MIN_INTERVAL_MINUTES : ℤ := 1

/-- `MIN_EASE_FACTOR` (study.ts line 54). -/
def MIN_EASE_FACTOR : ℚ := 13/10

/-- `computeIntervalMinutes` (study.ts lines 118–120):
`max(1, round((to - from) / 60000))` over epoch milliseconds. -/
def computeIntervalMinutes (fromTime toTime : Time) : ℤ :=
  max MIN_INTERVAL_MINUTES (jsRound ((toTime - fromTime : ℤ) / (60 * 1000 : ℚ)))

/-- `deriveEaseFactorFromDifficulty` (study.ts lines 122–125):
`max(1.3, round(((11 - difficulty) / 4) * 1000) / 1000)`. -/
def deriveEaseFactorFromDifficulty (difficulty : ℚ) : ℚ :=
  let derived := (11 - difficulty) / 4
  max MIN_EASE_FACTOR ((jsRound (derived * 1000) : ℚ) / 1000)

/-- `mapScoreToReviewRating` (study.ts lines 127–138). -/
def mapScoreToReviewRating (score : ℚ) : ReviewRating :=
  if score < 40 then .AGAIN
  else if score < 60 then .HARD
  else if score < 85 then .GOOD
  else .EASY

/-! ### The forgetting-curve scheduler

The scheduler invoked at study.ts line 180 (`fsrsScheduler.next`,
configured at lines 55–58 with `enable_fuzz: false` and
`enable_short_term: true`) is the third-party `ts-fsrs` package, whose
sources are not part of this repository.  It is modelled below from the
specification (§4.1): a deterministic pure function from
`(memory state, instant, grade)` to the next memory state, where stability
approximates the number of days until the next review (glossary), grows
more under easier grades and resets low under Again, short-term
(sub-day) steps drive the Learning/Relearning phases, and a lapse is
counted when Again is given to a graduated card. -/

/-- One minute in epoch milliseconds. -/
def minuteMs : ℤ := 60 * 1000

/-- One day in epoch milliseconds. -/
def dayMs : ℤ := 24 * 60 * minuteMs

/-- Modelled from the spec: upper bound on a whole-day interval. -/
def maximumIntervalDays : ℤ := 36500

/-- Modelled from the spec: initial stability granted by the first grade of
a new card — higher for easier grades (§4.1). -/
def initStability : FsrsGrade → ℚ
  | .Again => 2/5
  | .Hard => 6/5
  | .Good => 31/10
  | .Easy => 157/10

/-- Modelled from the spec: initial difficulty for a new card — harder
grades yield higher difficulty around the neutral midpoint 5. -/
def initDifficulty : FsrsGrade → ℚ
  | .Again => 7
  | .Hard => 6
  | .Good => 5
  | .Easy => 4

/-- Modelled from the spec: stability update — "stability increases more
under easier ratings and decreases (or resets low) under AGAIN" (§4.1). -/
def nextStability (s : ℚ) : FsrsGrade → ℚ
  | .Again => max (1/10) (s / 10)
  | .Hard => s * 6/5
  | .Good => s * 5/2
  | .Easy => s * 4

/-- Modelled from the spec: difficulty update, clamped to the bounded
scale ~1–10 (§3). -/
def nextDifficulty (d : ℚ) : FsrsGrade → ℚ
  | .Again => min 10 (d + 1)
  | .Hard => min 10 (d + 1/2)
  | .Good => d
  | .Easy => max 1 (d - 1/2)

/-- Modelled from the spec: whole-day interval from a stability value —
at the model's default retention target the interval equals the stability
in days (glossary), rounded and clamped to `[1, maximumIntervalDays]`. -/
def intervalFromStability (s : ℚ) : ℤ :=
  min maximumIntervalDays (max 1 (jsRound s))

/-- Modelled from the spec: days since the previous review as understood
by the model at this update. -/
def elapsedDaysAt (card : FsrsCard) (now : Time) : ℤ :=
  match card.last_review with
  | some t => max 0 (jsRound (((now - t : ℤ) : ℚ) / (dayMs : ℚ)))
  | none => 0

/-- Modelled from the spec: the `ts-fsrs` scheduler transition
(`fsrsScheduler.next` with fuzz disabled and short-term steps enabled).
New cards enter sub-day learning steps under Again/Hard/Good and graduate
immediately under Easy; Learning/Relearning cards repeat short steps or
graduate to Review; Review cards re-enter Relearning after ten minutes
under Again (counting a lapse) and otherwise grow whole-day intervals,
with the Hard interval capped below the Good interval and the Easy
interval forced above it so that next-due delays strictly increase across
grades (§4.1, §8). -/
def schedulerNext (card : FsrsCard) (now : Time) (grade : FsrsGrade) : FsrsCard :=
  let elapsed := elapsedDaysAt card now
  match card.state with
  | .New =>
    let s := initStability grade
    let d := initDifficulty grade
    match grade with
    | .Again =>
      { card with
        due := now + 1 * minuteMs
        stability := s
        difficulty := d
        elapsed_days := 0
        scheduled_days := 0
        learning_steps := 0
        reps := card.reps + 1
        state := .Learning
        last_review := some now }
    | .Hard =>
      { card with
        due := now + 5 * minuteMs
        stability := s
        difficulty := d
        elapsed_days := 0
        scheduled_days := 0
        learning_steps := 0
        reps := card.reps + 1
        state := .Learning
        last_review := some now }
    | .Good =>
      { card with
        due := now + 10 * minuteMs
        stability := s
        difficulty := d
        elapsed_days := 0
        scheduled_days := 0
        learning_steps := 1
        reps := card.reps + 1
        state := .Learning
        last_review := some now }
    | .Easy =>
      let days := intervalFromStability s
      { card with
        due := now + days * dayMs
        stability := s
        difficulty := d
        elapsed_days := 0
        scheduled_days := days
        learning_steps := 0
        reps := card.reps + 1
        state := .Review
        last_review := some now }
  | .Learning | .Relearning =>
    let s := nextStability card.stability grade
    let d := nextDifficulty card.difficulty grade
    match grade with
    | .Again =>
      { card with
        due := now + 1 * minuteMs
        stability := s
        difficulty := d
        elapsed_days := elapsed
        scheduled_days := 0
        learning_steps := 0
        reps := card.reps + 1
        last_review := some now }
    | .Hard =>
      { card with
        due := now + 5 * minuteMs
        stability := s
        difficulty := d
        elapsed_days := elapsed
        scheduled_days := 0
        reps := card.reps + 1
        last_review := some now }
    | .Good =>
      if 1 ≤ card.learning_steps then
        let days := intervalFromStability s
        { card with
          due := now + days * dayMs
          stability := s
          difficulty := d
          elapsed_days := elapsed
          scheduled_days := days
          learning_steps := 0
          reps := card.reps + 1
          state := .Review
          last_review := some now }
      else
        { card with
          due := now + 10 * minuteMs
          stability := s
          difficulty := d
          elapsed_days := elapsed
          scheduled_days := 0
          learning_steps := card.learning_steps + 1
          reps := card.reps + 1
          last_review := some now }
    | .Easy =>
      let goodDays := intervalFromStability (nextStability card.stability .Good)
      let days :=
        if 1 ≤ card.learning_steps then max (intervalFromStability s) (goodDays + 1)
        else intervalFromStability s
      { card with
        due := now + days * dayMs
        stability := s
        difficulty := d
        elapsed_days := elapsed
        scheduled_days := days
        learning_steps := 0
        reps := card.reps + 1
        state := .Review
        last_review := some now }
  | .Review =>
    let d := nextDifficulty card.difficulty grade
    match grade with
    | .Again =>
      { card with
        due := now + 10 * minuteMs
        stability := nextStability card.stability .Again
        difficulty := d
        elapsed_days := elapsed
        scheduled_days := 0
        learning_steps := 0
        reps := card.reps + 1
        lapses := card.lapses + 1
        state := .Relearning
        last_review := some now }
    | _ =>
      let hardDays0 := intervalFromStability (nextStability card.stability .Hard)
      let goodDays0 := intervalFromStability (nextStability card.stability .Good)
      let easyDays0 := intervalFromStability (nextStability card.stability .Easy)
      let hardDays := min hardDays0 goodDays0
      let goodDays := max goodDays0 (hardDays + 1)
      let easyDays := max easyDays0 (goodDays + 1)
      let days :=
        match grade with
        | .Hard => hardDays
        | .Easy => easyDays
        | _ => goodDays
      { card with
        due := now + days * dayMs
        stability := nextStability card.stability grade
        difficulty := d
        elapsed_days := elapsed
        scheduled_days := days
        learning_steps := 0
        reps := card.reps + 1
        state := .Review
        last_review := some now }

/-- The next-due delay produced by rating `r` from memory state `c` at
instant `now`, through the same rating translation the route uses
(study.ts line 180). -/
def nextDueDelay (c : FsrsCard) (now : Time) (r : ReviewRating) : ℤ :=
  (schedulerNext c now (mapReviewRatingToFsrsRating r)).due - now

/-! ### Review application and persistence -/

/-- The Prisma `Review` row as written by `tx.review.create`
(study.ts lines 223–234; `id` and `createdAt` are database-generated). -/
structure Review where
  userId : String
  deckId : String
  cardId : String
  rating : ReviewRating
  previousDueAt : Option Time
  scheduledDueAt : Time
  previousInterval : ℤ
  nextInterval : ℤ
  deriving DecidableEq, Repr

/-- The input record of `applyReviewForCard` (study.ts lines 171–178). -/
structure ReviewInput where
  cardId : String
  deckId : String
  userId : String
  scheduleState : Option ScheduleState
  rating : ReviewRating
  now : Time

/-- The scheduler transition function as consumed by the review applier
(the shape of `fsrsScheduler.next`). -/
abbrev SchedulerFun := FsrsCard → Time → FsrsGrade → FsrsCard

/-- The pure computation of `applyReviewForCard` (study.ts lines 179–185
and the field lists of the upsert and insert at lines 188–234): the
ScheduleState row to upsert and the Review row to insert. -/
def reviewOutcome (next : SchedulerFun) (input : ReviewInput) : ScheduleState × Review :=
  let fsrsCard := toFsrsCard input.scheduleState input.now
  let nextCard := next fsrsCard input.now (mapReviewRatingToFsrsRating input.rating)
  let nextIntervalMinutes := computeIntervalMinutes input.now nextCard.due
  let previousDueAt := input.scheduleState.map (fun s => s.dueAt)
  let previousInterval := (input.scheduleState.map (fun s => s.intervalMinutes)).getD 0
  let nextEaseFactor := deriveEaseFactorFromDifficulty nextCard.difficulty
  ({ cardId := input.cardId
     dueAt := nextCard.due
     lastReviewedAt := some input.now
     intervalMinutes := nextIntervalMinutes
     repetitions := nextCard.reps
     easeFactor := nextEaseFactor
     fsrsState := fsrsStateToInt nextCard.state
     fsrsStability := nextCard.stability
     fsrsDifficulty := nextCard.difficulty
     fsrsElapsedDays := nextCard.elapsed_days
     fsrsScheduledDays := nextCard.scheduled_days
     fsrsLearningSteps := nextCard.learning_steps
     fsrsLapses := nextCard.lapses },
   { userId := input.userId
     deckId := input.deckId
     cardId := input.cardId
     rating := input.rating
     previousDueAt := previousDueAt
     scheduledDueAt := nextCard.due
     previousInterval := previousInterval
     nextInterval := nextIntervalMinutes })

/-- The persistent store touched by the study core: the `ScheduleState`
table (unique on `cardId`) and the append-only `Review` table. -/
structure Db where
  scheduleStates : List ScheduleState
  reviews : List Review
  deriving DecidableEq, Repr

/-- `tx.scheduleState.upsert` keyed by `cardId` (study.ts lines 188–221):
replace the row whose `cardId` matches, or append a fresh row. -/
def upsertScheduleState (states : List ScheduleState) (row : ScheduleState) : List ScheduleState :=
  if states.any (fun s => s.cardId == row.cardId) then
    states.map (fun s => if s.cardId == row.cardId then row else s)
  else states ++ [row]

/-- `applyReviewForCard` (study.ts lines 171–241).  The two writes run
inside a single `prisma.$transaction`, whose contract is all-or-nothing:
`commitOk` abstracts whether the persistence layer commits; on failure
the store is left exactly as it was and no result is returned. -/
def applyReviewForCard (next : SchedulerFun) (input : ReviewInput) (db : Db)
    (commitOk : Bool) : Db × Option (ScheduleState × Review) :=
  let outcome := reviewOutcome next input
  if commitOk then
    ({ scheduleStates := upsertScheduleState db.scheduleStates outcome.1
       reviews := db.reviews ++ [outcome.2] },
     some outcome)
  else (db, none)

/-! ### The grade route -/

/-- An `AppError` (message and HTTP status) as thrown by the routes. -/
structure AppErr where
  message : String
  statusCode : ℤ
  deriving DecidableEq, Repr

/-- The environment of one `POST /study/grade` request: the caller's
current monthly chat-turn usage and plan limit (`ensureChatTurnAvailable`
in `ai/usage.ts` allows the turn iff `usage < limit`), whether the AI
grading call succeeds and the score it returns, and whether the review
transaction commits. -/
structure GradeDeps where
  usageChatTurns : ℤ
  monthlyChatTurns : ℤ
  aiOk : Bool
  aiScore : ℚ
  commitOk : Bool
  deriving DecidableEq, Repr

deriving instance DecidableEq for Except

/-- Observable outcome of one `POST /study/grade` request: the store, the
usage counter, whether the AI grader was invoked, and the response. -/
structure GradeOutcome where
  db : Db
  usageChatTurns : ℤ
  aiInvoked : Bool
  response : Except AppErr (ScheduleState × Review × ReviewRating)
  deriving DecidableEq, Repr

/-- The `POST /study/grade` handler (study.ts lines 447–514) after the
card has been loaded: check the monthly chat-turn quota and fail with 403
before anything else; call the AI grader; map the score to a rating and
apply the review; increment the usage counter only once the review
transaction has succeeded. -/
def gradeHandler (next : SchedulerFun) (cardId deckId userId : String)
    (scheduleState : Option ScheduleState) (now : Time) (deps : GradeDeps)
    (db : Db) : GradeOutcome :=
  if deps.usageChatTurns ≥ deps.monthlyChatTurns then
    { db := db
      usageChatTurns := deps.usageChatTurns
      aiInvoked := false
      response := .error ⟨"Monthly AI chat turn limit reached for current plan", 403⟩ }
  else if !deps.aiOk then
    { db := db
      usageChatTurns := deps.usageChatTurns
      aiInvoked := true
      response := .error ⟨"AI grading failed", 502⟩ }
  else
    let rating := mapScoreToReviewRating deps.aiScore
    let input : ReviewInput :=
      { cardId := cardId
        deckId := deckId
        userId := userId
        scheduleState := scheduleState
        rating := rating
        now := now }
    match applyReviewForCard next input db deps.commitOk with
    | (db', some result) =>
      { db := db'
        usageChatTurns := deps.usageChatTurns + 1
        aiInvoked := true
        response := .ok (result.1, result.2, rating) }
    | (db', none) =>
      { db := db'
        usageChatTurns := deps.usageChatTurns
        aiInvoked := true
        response := .error ⟨"Persistence failure", 500⟩ }

/-! ### Session selection -/

/-- A card of the deck as read by the session query, with its optional
`ScheduleState` relation. -/
structure SessionCard where
  id : String
  question : String
  answer : String
  createdAt : Time
  scheduleState : Option ScheduleState
  deriving DecidableEq, Repr

/-- The `scheduleState is dueAt <= now` filter of the scheduled-cards
query (study.ts lines 276–282). -/
def isDueScheduled (now : Time) (c : SessionCard) : Bool :=
  match c.scheduleState with
  | some ss => ss.dueAt ≤ now
  | none => false

/-- `orderBy scheduleState.dueAt asc` as a comparison on the queried
cards (total on all cards; only cards with a schedule state reach it). -/
def byDueAt (a b : SessionCard) : Bool :=
  (a.scheduleState.map (fun s => s.dueAt)).getD 0 ≤ (b.scheduleState.map (fun s => s.dueAt)).getD 0

/-- `orderBy createdAt asc` as a comparison. -/
def byCreatedAt (a b : SessionCard) : Bool :=
  a.createdAt ≤ b.createdAt

/-- The scheduled-and-due query (study.ts lines 270–293): cards of the
deck having a schedule state with `dueAt ≤ now`, ordered by `dueAt`
ascending, capped at `take`. -/
def dueScheduledQuery (cards : List SessionCard) (now : Time) (take : ℕ) : List SessionCard :=
  ((cards.filter (isDueScheduled now)).mergeSort byDueAt).take take

/-- The never-scheduled query (study.ts lines 294–311): cards of the deck
with no schedule state, ordered by `createdAt` ascending, capped at
`take`. -/
def dueUnscheduledQuery (cards : List SessionCard) (take : ℕ) : List SessionCard :=
  ((cards.filter (fun c => c.scheduleState.isNone)).mergeSort byCreatedAt).take take

/-- The merge loop (study.ts lines 314–323): starting from the scheduled
cards, append never-scheduled cards while capacity remains, skipping any
id already present. -/
def mergeDueCards (combined news : List SessionCard) (take : ℕ) : List SessionCard :=
  match news with
  | [] => combined
  | card :: rest =>
    if take ≤ combined.length then combined
    else if combined.any (fun candidate => candidate.id == card.id) then
      mergeDueCards combined rest take
    else
      mergeDueCards (combined ++ [card]) rest take

/-- The card sequence returned by `GET /study/decks/:deckId/session`
(study.ts lines 269–323). -/
def sessionCards (cards : List SessionCard) (now : Time) (take : ℕ) : List SessionCard :=
  mergeDueCards (dueScheduledQuery cards now take) (dueUnscheduledQuery cards take) take

/-! ### Theorems -/

/-- Claim C9: for every score (the mapping is total, also outside
`[0,100]`), the Grading Bridge maps the score to a rating exactly by the
fixed thresholds of study.ts lines 127–138. -/
theorem score_threshold_mapping (score : ℚ) :
    (score < 40 → mapScoreToReviewRating score = .AGAIN)
    ∧ (40 ≤ score ∧ score < 60 → mapScoreToReviewRating score = .HARD)
    ∧ (60 ≤ score ∧ score < 85 → mapScoreToReviewRating score = .GOOD)
    ∧ (85 ≤ score → mapScoreToReviewRating score = .EASY) := by
  refine ⟨fun h => ?_, fun h => ?_, fun h => ?_, fun h => ?_⟩ <;>
    simp only [mapScoreToReviewRating] <;>
    [skip; obtain ⟨h1, h2⟩ := h; obtain ⟨h1, h2⟩ := h; skip]
  · rw [if_pos h]
  · rw [if_neg (by linarith), if_pos h2]
  · rw [if_neg (by linarith), if_neg (by linarith), if_pos h2]
  · rw [if_neg (by linarith), if_neg (by linarith), if_neg (by linarith)]

/-- Witness for claim C9 at the concrete score 90. -/
theorem score_threshold_mapping_witness :
    (85 : ℚ) ≤ 90 ∧ mapScoreToReviewRating 90 = .EASY :=
  ⟨by norm_num, (score_threshold_mapping 90).2.2.2 (by norm_num)⟩

/-- Claim C8: every persisted ScheduleState written by a review carries
`easeFactor = max(1.3, round(((11 - difficulty) / 4) * 1000) / 1000)`
where `difficulty` is the newly computed `fsrsDifficulty`, for every
scheduler output. -/
theorem ease_factor_derivation (next : SchedulerFun) (input : ReviewInput) :
    (reviewOutcome next input).1.easeFactor
      = max (13/10)
          ((jsRound (((11 - (reviewOutcome next input).1.fsrsDifficulty) / 4) * 1000) : ℚ) / 1000) :=
  rfl

/-- Claim C7: every persisted ScheduleState written by a review carries
`intervalMinutes = max(1, round((dueAt - now) / 60000))`, hence
`intervalMinutes ≥ 1` always, for every scheduler output. -/
theorem interval_minutes_floor (next : SchedulerFun) (input : ReviewInput) :
    (reviewOutcome next input).1.intervalMinutes
        = max 1 (jsRound ((((reviewOutcome next input).1.dueAt - input.now : ℤ) : ℚ) / (60 * 1000)))
    ∧ 1 ≤ (reviewOutcome next input).1.intervalMinutes :=
  ⟨rfl, le_max_left _ _⟩

/-- The inferred stability of the legacy branch: `max(0.1, d || 0.1)`
coincides with `max(0.1, d)` for every non-negative integer `d`. -/
lemma max_tenth_or (d : ℤ) (hd : 0 ≤ d) :
    max (1/10 : ℚ) (if d = 0 then 1/10 else (d : ℚ)) = max (1/10) (d : ℚ) := by
  rcases eq_or_lt_of_le hd with h0 | hpos
  · rw [← h0]
    norm_num
  · rw [if_neg (by omega)]

/-- Claim C4: a ScheduleState lacking full model fields is reconstructed
by the Legacy Adapter with state Review iff `repetitions > 0`,
`scheduled_days = max(0, round(intervalMinutes / 1440))`,
`stability = max(0.1, scheduled_days)` (so `0.1` when the interval rounds
to zero days), the neutral midpoint difficulty 5, zero elapsed days,
learning steps and lapses, carried-over `repetitions`, `dueAt` and
`lastReviewedAt`. -/
theorem legacy_adapter_reconstruction (ss : ScheduleState) (now : Time)
    (h : ¬(ss.fsrsStability > 0 ∧ ss.fsrsDifficulty > 0)) :
    toFsrsCard (some ss) now =
      { due := ss.dueAt
        stability := max (1/10) ((max 0 (jsRound ((ss.intervalMinutes : ℚ) / (24 * 60))) : ℤ) : ℚ)
        difficulty := 5
        elapsed_days := 0
        scheduled_days := max 0 (jsRound ((ss.intervalMinutes : ℚ) / (24 * 60)))
        learning_steps := 0
        reps := ss.repetitions
        lapses := 0
        state := if ss.repetitions > 0 then .Review else .New
        last_review := ss.lastReviewedAt } := by
  have hst := max_tenth_or (max 0 (jsRound ((ss.intervalMinutes : ℚ) / (24 * 60)))) (le_max_left 0 _)
  simp only [toFsrsCard, if_neg h, FsrsCard.mk.injEq, hst]

/-- A concrete legacy-shaped ScheduleState row (no model fields). -/
def legacyRow : ScheduleState :=
  { cardId := "card-legacy"
    dueAt := 100
    lastReviewedAt := some 5
    intervalMinutes := 2880
    repetitions := 3
    easeFactor := 5/2
    fsrsState := 0
    fsrsStability := 0
    fsrsDifficulty := 0
    fsrsElapsedDays := 0
    fsrsScheduledDays := 0
    fsrsLearningSteps := 0
    fsrsLapses := 0 }

/-- Witness for claim C4 at a concrete legacy row. -/
theorem legacy_adapter_reconstruction_witness :
    ¬(legacyRow.fsrsStability > 0 ∧ legacyRow.fsrsDifficulty > 0)
    ∧ toFsrsCard (some legacyRow) 0 =
      { due := legacyRow.dueAt
        stability := max (1/10) ((max 0 (jsRound ((legacyRow.intervalMinutes : ℚ) / (24 * 60))) : ℤ) : ℚ)
        difficulty := 5
        elapsed_days := 0
        scheduled_days := max 0 (jsRound ((legacyRow.intervalMinutes : ℚ) / (24 * 60)))
        learning_steps := 0
        reps := legacyRow.repetitions
        lapses := 0
        state := if legacyRow.repetitions > 0 then .Review else .New
        last_review := legacyRow.lastReviewedAt } :=
  ⟨by decide, legacy_adapter_reconstruction legacyRow 0 (by decide)⟩

/-- Claim C5: on a ScheduleState with full model fields the Legacy
Adapter is the identity — every field is carried over unchanged, and the
stored coarse state decodes to itself whenever it lies in the allowed set
{0,1,2,3}; a stored state outside the allowed set is replaced by New. -/
theorem full_state_adapter_identity (ss : ScheduleState) (now : Time)
    (hfull : ss.fsrsStability > 0 ∧ ss.fsrsDifficulty > 0) :
    ((ss.fsrsState = 0 ∨ ss.fsrsState = 1 ∨ ss.fsrsState = 2 ∨ ss.fsrsState = 3) →
      toFsrsCard (some ss) now =
        { due := ss.dueAt
          stability := ss.fsrsStability
          difficulty := ss.fsrsDifficulty
          elapsed_days := ss.fsrsElapsedDays
          scheduled_days := ss.fsrsScheduledDays
          learning_steps := ss.fsrsLearningSteps
          reps := ss.repetitions
          lapses := ss.fsrsLapses
          state := normalizeFsrsState ss.fsrsState
          last_review := ss.lastReviewedAt }
      ∧ fsrsStateToInt (normalizeFsrsState ss.fsrsState) = ss.fsrsState)
    ∧ (¬(ss.fsrsState = 0 ∨ ss.fsrsState = 1 ∨ ss.fsrsState = 2 ∨ ss.fsrsState = 3) →
      (toFsrsCard (some ss) now).state = FsrsState.New) := by
  constructor
  · intro hin
    refine ⟨by simp only [toFsrsCard, if_pos hfull], ?_⟩
    rcases hin with h | h | h | h <;>
      simp [normalizeFsrsState, fsrsStateToInt, h]
  · intro hout
    push_neg at hout
    obtain ⟨h0, h1, h2, h3⟩ := hout
    simp only [toFsrsCard, if_pos hfull]
    simp [normalizeFsrsState, h0, h1, h2, h3]

/-- A concrete fully-populated ScheduleState row. -/
def fullRow : ScheduleState :=
  { cardId := "card-full"
    dueAt := 200
    lastReviewedAt := some 50
    intervalMinutes := 1440
    repetitions := 4
    easeFactor := 2
    fsrsState := 2
    fsrsStability := 7/2
    fsrsDifficulty := 6
    fsrsElapsedDays := 1
    fsrsScheduledDays := 1
    fsrsLearningSteps := 0
    fsrsLapses := 1 }

/-- Witness for claim C5 at a concrete fully-populated row. -/
theorem full_state_adapter_identity_witness :
    (fullRow.fsrsStability > 0 ∧ fullRow.fsrsDifficulty > 0)
    ∧ (fullRow.fsrsState = 0 ∨ fullRow.fsrsState = 1 ∨ fullRow.fsrsState = 2 ∨ fullRow.fsrsState = 3)
    ∧ (toFsrsCard (some fullRow) 0 =
        { due := fullRow.dueAt
          stability := fullRow.fsrsStability
          difficulty := fullRow.fsrsDifficulty
          elapsed_days := fullRow.fsrsElapsedDays
          scheduled_days := fullRow.fsrsScheduledDays
          learning_steps := fullRow.fsrsLearningSteps
          reps := fullRow.repetitions
          lapses := fullRow.fsrsLapses
          state := normalizeFsrsState fullRow.fsrsState
          last_review := fullRow.lastReviewedAt }
      ∧ fsrsStateToInt (normalizeFsrsState fullRow.fsrsState) = fullRow.fsrsState) :=
  ⟨by norm_num [fullRow], by norm_num [fullRow],
    (full_state_adapter_identity fullRow 0 (by norm_num [fullRow])).1 (by norm_num [fullRow])⟩

/-- Claim C6: grading with score 90 and directly submitting EASY invoke
the same review-application function with the same rating, so the
resulting store, and the ScheduleState/Review pair on success, are
identical. -/
theorem grade_score90_equals_easy_review (next : SchedulerFun)
    (cardId deckId userId : String) (st : Option ScheduleState) (now : Time)
    (db : Db) (commitOk : Bool) (usage limit : ℤ) (hquota : usage < limit) :
    (gradeHandler next cardId deckId userId st now ⟨usage, limit, true, 90, commitOk⟩ db).db
      = (applyReviewForCard next ⟨cardId, deckId, userId, st, .EASY, now⟩ db commitOk).1
    ∧ ∀ result,
        (applyReviewForCard next ⟨cardId, deckId, userId, st, .EASY, now⟩ db commitOk).2
            = some result →
          (gradeHandler next cardId deckId userId st now ⟨usage, limit, true, 90, commitOk⟩ db).response
            = .ok (result.1, result.2, .EASY) := by
  have h1 : ¬(usage ≥ limit) := not_le.mpr hquota
  have h90 : mapScoreToReviewRating 90 = .EASY := by norm_num [mapScoreToReviewRating]
  cases commitOk <;>
    simp [gradeHandler, applyReviewForCard, h1, h90]

/-- Witness for claim C6 at a concrete card, store and instant. -/
theorem grade_score90_equals_easy_review_witness :
    (0 : ℤ) < 10
    ∧ (gradeHandler (fun c _ _ => c) "c" "d" "u" none 0 ⟨0, 10, true, 90, true⟩ ⟨[], []⟩).db
        = (applyReviewForCard (fun c _ _ => c) ⟨"c", "d", "u", none, .EASY, 0⟩ ⟨[], []⟩ true).1 :=
  ⟨by norm_num,
    (grade_score90_equals_easy_review (fun c _ _ => c) "c" "d" "u" none 0
      ⟨[], []⟩ true 0 10 (by norm_num)).1⟩

/-- Claim C10: a grade request from a caller whose monthly chat-turn
quota is exhausted fails with a 403 before the AI grader is invoked and
before the review applier runs — the store and the usage counter are
untouched — and the usage counter is incremented exactly when the review
transaction succeeds. -/
theorem grade_quota_gate (next : SchedulerFun) (cardId deckId userId : String)
    (st : Option ScheduleState) (now : Time) (deps : GradeDeps) (db : Db) :
    (deps.monthlyChatTurns ≤ deps.usageChatTurns →
      gradeHandler next cardId deckId userId st now deps db
        = { db := db
            usageChatTurns := deps.usageChatTurns
            aiInvoked := false
            response := .error ⟨"Monthly AI chat turn limit reached for current plan", 403⟩ })
    ∧ ((gradeHandler next cardId deckId userId st now deps db).usageChatTurns
          = deps.usageChatTurns + 1
        ↔ ∃ x, (gradeHandler next cardId deckId userId st now deps db).response = .ok x) := by
  obtain ⟨usage, limit, aiOk, aiScore, commitOk⟩ := deps
  dsimp only
  constructor
  · intro h
    simp only [gradeHandler]
    rw [if_pos h]
  · by_cases hq : usage ≥ limit
    · have hU : (gradeHandler next cardId deckId userId st now
          ⟨usage, limit, aiOk, aiScore, commitOk⟩ db).usageChatTurns = usage := by
        simp [gradeHandler, if_pos hq]
      refine iff_of_false (by rw [hU]; omega) ?_
      rintro ⟨x, hx⟩
      simp [gradeHandler, if_pos hq] at hx
    · cases aiOk
      · have hU : (gradeHandler next cardId deckId userId st now
            ⟨usage, limit, false, aiScore, commitOk⟩ db).usageChatTurns = usage := by
          simp [gradeHandler, if_neg hq]
        refine iff_of_false (by rw [hU]; omega) ?_
        rintro ⟨x, hx⟩
        simp [gradeHandler, if_neg hq] at hx
      · cases commitOk
        · have hU : (gradeHandler next cardId deckId userId st now
              ⟨usage, limit, true, aiScore, false⟩ db).usageChatTurns = usage := by
            simp [gradeHandler, applyReviewForCard, if_neg hq]
          refine iff_of_false (by rw [hU]; omega) ?_
          rintro ⟨x, hx⟩
          simp [gradeHandler, applyReviewForCard, if_neg hq] at hx
        · constructor
          · intro _
            rcases hE : (gradeHandler next cardId deckId userId st now
                ⟨usage, limit, true, aiScore, true⟩ db).response with e | x
            · exfalso
              simp [gradeHandler, applyReviewForCard, if_neg hq] at hE
            · exact ⟨x, rfl⟩
          · intro _
            simp [gradeHandler, applyReviewForCard, if_neg hq]

/-- Witness for claim C10: an exhausted quota yields the 403 outcome. -/
theorem grade_quota_gate_witness :
    (10 : ℤ) ≤ 10
    ∧ gradeHandler (fun c _ _ => c) "c" "d" "u" none 0 ⟨10, 10, true, 90, true⟩ ⟨[], []⟩
        = { db := ⟨[], []⟩
            usageChatTurns := 10
            aiInvoked := false
            response := .error ⟨"Monthly AI chat turn limit reached for current plan", 403⟩ } :=
  ⟨by norm_num,
    (grade_quota_gate (fun c _ _ => c) "c" "d" "u" none 0 ⟨10, 10, true, 90, true⟩
      ⟨[], []⟩).1 (by norm_num)⟩

/-- Replacing every `p`-element of a list by a fixed `p`-element `row`
leaves exactly `[row]` under the `p`-filter, when the list held at most
one `p`-element and at least one. -/
lemma filter_map_replace {α : Type} (p : α → Bool) (row : α) (hrow : p row = true) :
    ∀ l : List α, l.countP p ≤ 1 → l.any p = true →
      (l.map (fun s => if p s then row else s)).filter p = [row] := by
  intro l
  induction l with
  | nil => intro _ h; simp at h
  | cons a t ih =>
    intro hcount hany
    by_cases ha : p a = true
    · have ht : t.countP p = 0 := by
        rw [List.countP_cons_of_pos p _ ha] at hcount
        omega
      have htall : ∀ x ∈ t, ¬p x = true := List.countP_eq_zero.mp ht
      have htmap : t.map (fun s => if p s then row else s) = t := by
        have h2 : ∀ x ∈ t, (fun s => if p s then row else s) x = id x := by
          intro x hx
          simp only [id]
          exact if_neg (htall x hx)
        rw [List.map_congr_left h2, List.map_id]
      rw [List.map_cons, if_pos ha, htmap, List.filter_cons_of_pos hrow,
        List.filter_eq_nil_iff.mpr htall]
    · have hanyt : t.any p = true := by
        rcases List.any_eq_true.mp hany with ⟨x, hx, hpx⟩
        rcases List.mem_cons.mp hx with hx | hx
        · exact absurd (hx ▸ hpx) ha
        · exact List.any_eq_true.mpr ⟨x, hx, hpx⟩
      have hcountt : t.countP p ≤ 1 := by
        rwa [List.countP_cons_of_neg p _ ha] at hcount
      rw [List.map_cons, if_neg ha, List.filter_cons_of_neg ha]
      exact ih hcountt hanyt

/-- Replacing `p`-elements by a `p`-element does not disturb the
complement filter. -/
lemma filter_not_map_replace {α : Type} (p : α → Bool) (row : α) (hrow : p row = true) :
    ∀ l : List α,
      (l.map (fun s => if p s then row else s)).filter (fun s => !(p s))
        = l.filter (fun s => !(p s)) := by
  intro l
  induction l with
  | nil => rfl
  | cons a t ih =>
    by_cases ha : p a = true
    · rw [List.map_cons, if_pos ha, List.filter_cons_of_neg (by simp [hrow]),
        List.filter_cons_of_neg (by simp [ha])]
      exact ih
    · rw [List.map_cons, if_neg ha, List.filter_cons_of_pos (by simp [ha]),
        List.filter_cons_of_pos (by simp [ha]), ih]

/-- The upsert leaves exactly one row for the upserted `cardId` when the
unique index held before. -/
lemma upsert_filter_self (states : List ScheduleState) (row : ScheduleState)
    (key : String) (hkey : row.cardId = key)
    (h : states.countP (fun s => s.cardId == key) ≤ 1) :
    (upsertScheduleState states row).filter (fun s => s.cardId == key) = [row] := by
  subst hkey
  unfold upsertScheduleState
  split_ifs with hany
  · exact filter_map_replace _ row (by simp) states h hany
  · rw [List.filter_append]
    have h0 : states.filter (fun s => s.cardId == row.cardId) = [] := by
      rw [List.filter_eq_nil_iff]
      intro a ha hpa
      exact absurd (List.any_eq_true.mpr ⟨a, ha, hpa⟩) hany
    rw [h0, List.nil_append, List.filter_cons_of_pos (by simp), List.filter_nil]

/-- The upsert does not disturb rows of other cards. -/
lemma upsert_filter_ne (states : List ScheduleState) (row : ScheduleState)
    (key : String) (hkey : row.cardId = key) :
    (upsertScheduleState states row).filter (fun s => !(s.cardId == key))
      = states.filter (fun s => !(s.cardId == key)) := by
  subst hkey
  unfold upsertScheduleState
  split_ifs with hany
  · exact filter_not_map_replace _ row (by simp) states
  · rw [List.filter_append, List.filter_cons_of_neg (by simp), List.filter_nil,
      List.append_nil]

/-- Claim C2: the ScheduleState upsert and the Review insert of a review
event commit together or not at all — on failure the store is unchanged
and no result is observable; on success exactly one row is upserted for
the card (given the unique index on `cardId`), every other row is
untouched, and exactly one Review is appended. -/
theorem review_upsert_insert_atomic (next : SchedulerFun) (input : ReviewInput)
    (db : Db) (commitOk : Bool)
    (huniq : db.scheduleStates.countP (fun s => s.cardId == input.cardId) ≤ 1) :
    ((applyReviewForCard next input db commitOk).2 = none →
        (applyReviewForCard next input db commitOk).1 = db)
    ∧ (∀ result, (applyReviewForCard next input db commitOk).2 = some result →
        (applyReviewForCard next input db commitOk).1.reviews = db.reviews ++ [result.2]
        ∧ (applyReviewForCard next input db commitOk).1.scheduleStates.filter
            (fun s => s.cardId == input.cardId) = [result.1]
        ∧ (applyReviewForCard next input db commitOk).1.scheduleStates.filter
            (fun s => !(s.cardId == input.cardId))
          = db.scheduleStates.filter (fun s => !(s.cardId == input.cardId))) := by
  cases commitOk
  · refine ⟨fun _ => rfl, fun result hres => ?_⟩
    simp [applyReviewForCard] at hres
  · refine ⟨fun hnone => ?_, fun result hres => ?_⟩
    · simp [applyReviewForCard] at hnone
    · have hres' : reviewOutcome next input = result := by
        simpa [applyReviewForCard] using hres
      subst hres'
      refine ⟨rfl, ?_, ?_⟩
      · show (upsertScheduleState db.scheduleStates (reviewOutcome next input).1).filter
            (fun s => s.cardId == input.cardId) = [(reviewOutcome next input).1]
        exact upsert_filter_self _ _ input.cardId rfl huniq
      · show (upsertScheduleState db.scheduleStates (reviewOutcome next input).1).filter
            (fun s => !(s.cardId == input.cardId))
          = db.scheduleStates.filter (fun s => !(s.cardId == input.cardId))
        exact upsert_filter_ne _ _ input.cardId rfl

/-- A concrete review input for the atomicity witness. -/
def wInput : ReviewInput :=
  { cardId := "card-w"
    deckId := "deck-w"
    userId := "user-w"
    scheduleState := none
    rating := .GOOD
    now := 0 }

/-- Witness for claim C2 at an empty store with a committing transaction. -/
theorem review_upsert_insert_atomic_witness :
    (([] : List ScheduleState).countP (fun s => s.cardId == wInput.cardId) ≤ 1)
    ∧ ((applyReviewForCard (fun c _ _ => c) wInput ⟨[], []⟩ true).1.reviews
          = ([] : List Review) ++ [(reviewOutcome (fun c _ _ => c) wInput).2]
      ∧ (applyReviewForCard (fun c _ _ => c) wInput ⟨[], []⟩ true).1.scheduleStates.filter
          (fun s => s.cardId == wInput.cardId) = [(reviewOutcome (fun c _ _ => c) wInput).1]
      ∧ (applyReviewForCard (fun c _ _ => c) wInput ⟨[], []⟩ true).1.scheduleStates.filter
          (fun s => !(s.cardId == wInput.cardId))
        = ([] : List ScheduleState).filter (fun s => !(s.cardId == wInput.cardId))) :=
  ⟨by simp,
    (review_upsert_insert_atomic (fun c _ _ => c) wInput ⟨[], []⟩ true (by simp)).2
      (reviewOutcome (fun c _ _ => c) wInput) rfl⟩

/-- A stability-derived whole-day interval is at least one day. -/
lemma one_le_intervalFromStability (s : ℚ) : 1 ≤ intervalFromStability s := by
  unfold intervalFromStability maximumIntervalDays
  exact le_min (by norm_num) (le_max_left 1 _)

/-- Claim C1: for every current memory state and review instant, the
next-due delays of the four ratings are ordered AGAIN ≤ HARD < GOOD <
EASY (here in fact strictly throughout, which subsumes the permitted
non-strict boundary between AGAIN and HARD). -/
theorem scheduler_rating_delay_ordering (c : FsrsCard) (now : Time) :
    nextDueDelay c now .AGAIN ≤ nextDueDelay c now .HARD
    ∧ nextDueDelay c now .HARD < nextDueDelay c now .GOOD
    ∧ nextDueDelay c now .GOOD < nextDueDelay c now .EASY := by
  obtain ⟨due, stab, diff, ed, sd, ls, reps, lapses, state, lr⟩ := c
  cases state
  case New =>
    refine ⟨?_, ?_, ?_⟩ <;>
      simp only [nextDueDelay, schedulerNext, mapReviewRatingToFsrsRating, minuteMs, dayMs]
    · omega
    · omega
    · have h1 := one_le_intervalFromStability (initStability .Easy)
      linarith
  case Learning =>
    refine ⟨?_, ?_, ?_⟩ <;>
      simp only [nextDueDelay, schedulerNext, mapReviewRatingToFsrsRating, minuteMs, dayMs]
    · omega
    · split_ifs with h <;> dsimp only
      · have h1 := one_le_intervalFromStability (nextStability stab .Good)
        linarith
      · omega
    · split_ifs with h <;> dsimp only
      · have h1 := one_le_intervalFromStability (nextStability stab .Good)
        have h2 := le_max_right (intervalFromStability (nextStability stab .Easy))
          (intervalFromStability (nextStability stab .Good) + 1)
        linarith
      · have h1 := one_le_intervalFromStability (nextStability stab .Easy)
        linarith
  case Relearning =>
    refine ⟨?_, ?_, ?_⟩ <;>
      simp only [nextDueDelay, schedulerNext, mapReviewRatingToFsrsRating, minuteMs, dayMs]
    · omega
    · split_ifs with h <;> dsimp only
      · have h1 := one_le_intervalFromStability (nextStability stab .Good)
        linarith
      · omega
    · split_ifs with h <;> dsimp only
      · have h1 := one_le_intervalFromStability (nextStability stab .Good)
        have h2 := le_max_right (intervalFromStability (nextStability stab .Easy))
          (intervalFromStability (nextStability stab .Good) + 1)
        linarith
      · have h1 := one_le_intervalFromStability (nextStability stab .Easy)
        linarith
  case Review =>
    have hh := one_le_intervalFromStability (nextStability stab .Hard)
    have hg := one_le_intervalFromStability (nextStability stab .Good)
    refine ⟨?_, ?_, ?_⟩ <;>
      simp only [nextDueDelay, schedulerNext, mapReviewRatingToFsrsRating, minuteMs, dayMs]
    · have h1 : 1 ≤ min (intervalFromStability (nextStability stab .Hard))
          (intervalFromStability (nextStability stab .Good)) := le_min hh hg
      linarith
    · have h1 := le_max_right (intervalFromStability (nextStability stab .Good))
        (min (intervalFromStability (nextStability stab .Hard))
          (intervalFromStability (nextStability stab .Good)) + 1)
      linarith
    · have h1 := le_max_right (intervalFromStability (nextStability stab .Easy))
        (max (intervalFromStability (nextStability stab .Good))
          (min (intervalFromStability (nextStability stab .Hard))
            (intervalFromStability (nextStability stab .Good)) + 1) + 1)
      linarith

/-- The merge loop appends, after the scheduled cards, a subsequence of
the never-scheduled cards whose ids avoid every id already present. -/
lemma mergeDueCards_structure (take : ℕ) :
    ∀ (news combined : List SessionCard),
      ∃ post, mergeDueCards combined news take = combined ++ post
        ∧ post.Sublist news
        ∧ (∀ c ∈ post, ∀ c2 ∈ combined, c.id ≠ c2.id) := by
  intro news
  induction news with
  | nil =>
    intro combined
    exact ⟨[], by simp [mergeDueCards], List.nil_sublist _, by simp⟩
  | cons a rest ih =>
    intro combined
    simp only [mergeDueCards]
    split_ifs with hlen hdup
    · exact ⟨[], by simp, List.nil_sublist _, by simp⟩
    · obtain ⟨post, heq, hsub, hid⟩ := ih combined
      exact ⟨post, heq, hsub.cons a, hid⟩
    · obtain ⟨post, heq, hsub, hid⟩ := ih (combined ++ [a])
      refine ⟨a :: post, ?_, hsub.cons₂ a, ?_⟩
      · rw [heq, List.append_assoc, List.singleton_append]
      · intro c hc c2 hc2
        rcases List.mem_cons.mp hc with hc | hc
        · subst hc
          intro hcontra
          exact hdup (List.any_eq_true.mpr ⟨c2, hc2, by simp [hcontra]⟩)
        · exact hid c hc c2 (List.mem_append_left _ hc2)

/-- The merge loop never grows the sequence beyond the limit. -/
lemma mergeDueCards_length (take : ℕ) :
    ∀ news combined, combined.length ≤ take →
      (mergeDueCards combined news take).length ≤ take := by
  intro news
  induction news with
  | nil => intro combined h; simpa [mergeDueCards] using h
  | cons a rest ih =>
    intro combined h
    simp only [mergeDueCards]
    split_ifs with hlen hdup
    · exact h
    · exact ih combined h
    · apply ih
      simp only [List.length_append, List.length_singleton]
      omega

/-- Every card of the scheduled-and-due query is due at or before `now`. -/
lemma mem_dueScheduledQuery {cards : List SessionCard} {now : Time} {take : ℕ}
    {c : SessionCard} (hc : c ∈ dueScheduledQuery cards now take) :
    ∀ ss, c.scheduleState = some ss → ss.dueAt ≤ now := by
  intro ss hss
  have h1 : c ∈ (cards.filter (isDueScheduled now)).mergeSort byDueAt :=
    List.mem_of_mem_take hc
  have h2 : c ∈ cards.filter (isDueScheduled now) :=
    (List.mergeSort_perm _ byDueAt).subset h1
  have h3 := List.of_mem_filter h2
  unfold isDueScheduled at h3
  rw [hss] at h3
  exact of_decide_eq_true h3

/-- Every card of the never-scheduled query has no schedule state. -/
lemma mem_dueUnscheduledQuery {cards : List SessionCard} {take : ℕ}
    {c : SessionCard} (hc : c ∈ dueUnscheduledQuery cards take) :
    c.scheduleState = none := by
  have h1 : c ∈ (cards.filter (fun c => c.scheduleState.isNone)).mergeSort byCreatedAt :=
    List.mem_of_mem_take hc
  have h2 : c ∈ cards.filter (fun c => c.scheduleState.isNone) :=
    (List.mergeSort_perm _ byCreatedAt).subset h1
  have h3 := (List.mem_filter.mp h2).2
  simpa using h3

/-- The scheduled-and-due query is sorted by due date. -/
lemma dueScheduledQuery_sorted (cards : List SessionCard) (now : Time) (take : ℕ) :
    (dueScheduledQuery cards now take).Pairwise (fun a b => byDueAt a b = true) := by
  apply List.Pairwise.sublist (List.take_sublist _ _)
  apply List.sorted_mergeSort
  · intro a b c hab hbc
    unfold byDueAt at hab hbc ⊢
    exact decide_eq_true (le_trans (of_decide_eq_true hab) (of_decide_eq_true hbc))
  · intro a b
    unfold byDueAt
    rcases le_total ((a.scheduleState.map (fun s => s.dueAt)).getD 0)
        ((b.scheduleState.map (fun s => s.dueAt)).getD 0) with h | h <;> simp [h]

/-- The never-scheduled query is sorted by creation time. -/
lemma dueUnscheduledQuery_sorted (cards : List SessionCard) (take : ℕ) :
    (dueUnscheduledQuery cards take).Pairwise (fun a b => byCreatedAt a b = true) := by
  apply List.Pairwise.sublist (List.take_sublist _ _)
  apply List.sorted_mergeSort
  · intro a b c hab hbc
    unfold byCreatedAt at hab hbc ⊢
    exact decide_eq_true (le_trans (of_decide_eq_true hab) (of_decide_eq_true hbc))
  · intro a b
    unfold byCreatedAt
    rcases le_total a.createdAt b.createdAt with h | h <;> simp [h]

/-- Claim C3: the session selection returns at most `L` cards, never one
whose schedule state is due after `now`; it is the scheduled-and-due
cards sorted by due date followed by a subsequence of the never-scheduled
cards sorted by creation time, skipping ids already present. -/
theorem session_selection_spec (cards : List SessionCard) (now : Time) (L : ℕ) :
    (sessionCards cards now L).length ≤ L
    ∧ (∀ c ∈ sessionCards cards now L, ∀ ss, c.scheduleState = some ss → ss.dueAt ≤ now)
    ∧ ∃ post,
        sessionCards cards now L = dueScheduledQuery cards now L ++ post
        ∧ (dueScheduledQuery cards now L).Pairwise
            (fun a b => ∀ sa sb, a.scheduleState = some sa → b.scheduleState = some sb →
              sa.dueAt ≤ sb.dueAt)
        ∧ post.Sublist (dueUnscheduledQuery cards L)
        ∧ (∀ c ∈ post, c.scheduleState = none)
        ∧ post.Pairwise (fun a b => a.createdAt ≤ b.createdAt)
        ∧ (∀ c ∈ post, ∀ c2 ∈ dueScheduledQuery cards now L, c.id ≠ c2.id) := by
  obtain ⟨post, heq, hsub, hid⟩ :=
    mergeDueCards_structure L (dueUnscheduledQuery cards L) (dueScheduledQuery cards now L)
  have hpostnone : ∀ c ∈ post, c.scheduleState = none :=
    fun c hc => mem_dueUnscheduledQuery (hsub.subset hc)
  refine ⟨?_, ?_, post, heq, ?_, hsub, hpostnone, ?_, hid⟩
  · exact mergeDueCards_length L _ _ (List.length_take_le _ _)
  · intro c hc ss hss
    rw [sessionCards] at hc
    rw [heq] at hc
    rcases List.mem_append.mp hc with hc | hc
    · exact mem_dueScheduledQuery hc ss hss
    · rw [hpostnone c hc] at hss
      cases hss
  · apply List.Pairwise.imp ?_ (dueScheduledQuery_sorted cards now L)
    intro a b hab
    intro sa sb hsa hsb
    unfold byDueAt at hab
    rw [hsa, hsb] at hab
    simpa using of_decide_eq_true hab
  · apply List.Pairwise.imp ?_ ((dueUnscheduledQuery_sorted cards L).sublist hsub)
    intro a b hab
    exact of_decide_eq_true hab

/-- A concrete schedule state due at instant 5, for the session witness. -/
def wStateA : ScheduleState :=
  { cardId := "a"
    dueAt := 5
    lastReviewedAt := none
    intervalMinutes := 1
    repetitions := 0
    easeFactor := 2
    fsrsState := 0
    fsrsStability := 1
    fsrsDifficulty := 5
    fsrsElapsedDays := 0
    fsrsScheduledDays := 0
    fsrsLearningSteps := 0
    fsrsLapses := 0 }

/-- A concrete deck card carrying `wStateA`. -/
def wCardA : SessionCard :=
  { id := "a"
    question := "q"
    answer := "ans"
    createdAt := 1
    scheduleState := some wStateA }

/-- Witness for claim C3 on a one-card deck at instant 10 with limit 2. -/
theorem session_selection_spec_witness :
    (sessionCards [wCardA] 10 2).length ≤ 2 ∧ wStateA.dueAt ≤ 10 :=
  ⟨(session_selection_spec [wCardA] 10 2).1,
   (session_selection_spec [wCardA] 10 2).2.1 wCardA
     (by simp [sessionCards, dueScheduledQuery, dueUnscheduledQuery, mergeDueCards,
       isDueScheduled, wCardA, wStateA, List.mergeSort])
     wStateA rfl⟩

end FlashCards
